import Mathlib

/-!
Verification of the sentiment-driven portfolio pipeline
(`src/data_processor.py`, `src/api.py`, `src/api_simple.py`).

The Python code is shallowly embedded: pandas tables become lists of
labelled columns or rows, missing values (NaN) become `Option`, dates
become an explicit calendar `Date` structure, and the external price
source becomes an oracle function parameter.
-/

namespace Portfolio

/-! ## Calendar dates

`pd.Timestamp` month-end labels and `pd.DateOffset(1)` (one day). -/

structure Date where
  y : Nat
  m : Nat
  d : Nat
deriving DecidableEq, Repr

def isLeap (y : Nat) : Bool :=
  (y % 4 == 0 && y % 100 != 0) || y % 400 == 0

def daysInMonth (y m : Nat) : Nat :=
  if m == 2 then (if isLeap y then 29 else 28)
  else if m == 4 || m == 6 || m == 9 || m == 11 then 30
  else 31

/-- The month-end label produced by grouping with frequency M / ME. -/
def monthEnd (y m : Nat) : Date := ⟨y, m, daysInMonth y m⟩

/-- pd.DateOffset(1): advance a timestamp by one calendar day. -/
def addOneDay (dt : Date) : Date :=
  if dt.d < daysInMonth dt.y dt.m then ⟨dt.y, dt.m, dt.d + 1⟩
  else if dt.m < 12 then ⟨dt.y, dt.m + 1, 1⟩
  else ⟨dt.y + 1, 1, 1⟩

/-! ## SentimentProcessor: monthly aggregation, ranking, top-N filter

A month's aggregated table is a list of (symbol, mean engagement value)
pairs, one per symbol, as produced by the groupby-mean in
`aggregate_sentiment`. -/

abbrev MonthTable := List (String × ℚ)

/-- Number of rows of the month table whose value is strictly greater
than r. -/
def countGt (tbl : MonthTable) (r : ℚ) : Nat :=
  (tbl.filter (fun p => r < p.2)).length

/-- Number of rows of the month table whose value equals r. -/
def countEq (tbl : MonthTable) (r : ℚ) : Nat :=
  (tbl.filter (fun p => p.2 = r)).length

/-- `x.rank(ascending=False)` with the pandas default method (average):
a value tied with e rows (itself included) and beaten by g rows gets the
mean of positions g+1 .. g+e, i.e. (2g + e + 1) / 2. -/
def avgRankOf (tbl : MonthTable) (r : ℚ) : ℚ :=
  ((2 * countGt tbl r + countEq tbl r + 1 : Nat) : ℚ) / 2

/-- Modelled from the spec: a dense descending rank, 1 + the number of
distinct values strictly greater than r (tied rows share a rank and the
assigned ranks have no gaps). Used only to compare against the source's
`avgRankOf`. -/
def denseRankSpec (tbl : MonthTable) (r : ℚ) : ℚ :=
  (1 + ((tbl.map Prod.snd).filter (fun v => r < v)).dedup.length : Nat)

/-- `filter_top_stocks`: keep rows with rank < top_n + 1. -/
def topFilter (tbl : MonthTable) (topN : Nat) : MonthTable :=
  tbl.filter (fun p => avgRankOf tbl p.2 < (topN : ℚ) + 1)

/-- The symbols a month's table selects for the portfolio. -/
def selectSymbols (tbl : MonthTable) (topN : Nat) : List String :=
  (topFilter tbl topN).map Prod.fst

/-- The aggregated data keyed by month: ((year, month), table). -/
abbrev Aggregated := List ((Nat × Nat) × MonthTable)

/-- `filter_top_stocks` + `get_portfolio_dates`: filter each month's
table to the top-N rows, shift the month-end label by one day, and
group the surviving symbols under the shifted date. -/
def buildComposition (agg : Aggregated) (topN : Nat) : List (Date × List String) :=
  agg.map (fun e => (addOneDay (monthEnd e.1.1 e.1.2), selectSymbols e.2 topN))

/-! ## ParallelPortfolioEngine construction and batch sizes -/

structure ParallelPortfolioEngine where
  batchSize : Nat
deriving DecidableEq, Repr

/-- `ParallelPortfolioEngine.__init__(self, batch_size: int = 20)`:
`none` stands for a caller that does not pass the argument. -/
def engineInit (b : Option Nat) : ParallelPortfolioEngine :=
  ⟨b.getD 20⟩

/-- `PortfolioAPI.__init__`: `ParallelPortfolioEngine(batch_size=15)`. -/
def apiEngine : ParallelPortfolioEngine := engineInit (some 15)

/-- `parallel_stock_download_simple(..., batch_size: int = 15)`:
the batch size the no-Ray download path uses when the caller does not
pass one. -/
def simpleDownloadBatchSize (b : Option Nat) : Nat :=
  b.getD 15

/-! ## BatchedDataFetcher: `download_stock_data_parallel`

A fetched frame is a list of symbol-labelled columns of adjusted-close
prices; the external source `yf.download` is an oracle parameter, and a
batch whose download raised or returned nothing is the empty frame. -/

abbrev PriceFrame := List (String × List ℚ)

def excludedStocks : List String := ["MRO", "ATVI"]

/-- `[lst[i:i+size] for i in range(0, len(lst), size)]`; a step of 0 is
a Python error, rendered here as the empty batch list. -/
def chunkList (l : List α) (size : Nat) : List (List α) :=
  match l, size with
  | [], _ => []
  | _ :: _, 0 => []
  | x :: xs, s + 1 => (x :: xs).take (s + 1) :: chunkList ((x :: xs).drop (s + 1)) (s + 1)
termination_by l.length
decreasing_by
  simp only [List.length_drop, List.length_cons]
  omega

/-- `download_stock_data_parallel`: drop excluded tickers, split into
fixed-size batches, fetch each batch concurrently, keep the non-empty
results and merge them column-wise (`pd.concat(..., axis=1)`). -/
def downloadStockDataParallel (fetch : List String → PriceFrame)
    (stocksList : List String) (batchSize : Nat) : PriceFrame :=
  let filtered := stocksList.filter (fun s => decide (s ∉ excludedStocks))
  let batches := chunkList filtered batchSize
  let results := batches.map fetch
  let valid := results.filter (fun df => !df.isEmpty)
  valid.flatten

/-! ## ReturnCalculator: `np.log(adj_close).diff().dropna()`

Cells are `Option ℝ`; `none` is a NaN cell (a date on which a symbol
has no price). Rows are indexed by position into `dates`. -/

abbrev Series := List (Option ℝ)

structure PriceTable where
  dates : List Nat
  cols : List (String × Series)

/-- `np.log` applied elementwise; NaN cells stay NaN. -/
noncomputable def npLogCol (col : Series) : Series :=
  col.map (Option.map Real.log)

/-- One cell of `.diff()`: current minus previous, NaN when either is
NaN. -/
noncomputable def diffCell : Option ℝ → Option ℝ → Option ℝ
  | some a, some b => some (b - a)
  | _, _ => none

/-- `.diff()` along one column; the accumulator carries the previous
cell. -/
noncomputable def diffColAux : Option ℝ → Series → Series
  | _, [] => []
  | prev, x :: xs => diffCell prev x :: diffColAux x xs

/-- `.diff()` on one column: the first observation has no predecessor
and becomes NaN. -/
noncomputable def diffCol (col : Series) : Series := diffColAux none col

/-- Whether a column holds a non-NaN value at row i. -/
def definedAt (col : Series) (i : Nat) : Bool :=
  ((col[i]?).bind id).isSome

/-- The per-symbol return columns before `dropna`. -/
noncomputable def returnsCols (t : PriceTable) : List (String × Series) :=
  t.cols.map (fun c => (c.1, diffCol (npLogCol c.2)))

/-- `dropna()` keeps a row only when every column is non-NaN there. -/
def rowAllDefined (cols : List (String × Series)) (i : Nat) : Bool :=
  cols.all (fun c => definedAt c.2 i)

/-- Row positions of `np.log(adj_close).diff().dropna()`: the rows
every symbol's return is defined on. -/
noncomputable def survivingRows (t : PriceTable) : List Nat :=
  (List.range t.dates.length).filter (fun i => rowAllDefined (returnsCols t) i)

/-- Modelled from the spec: per-symbol dropping, where each symbol
keeps every row its own differencing defines (so start dates could stay
ragged). Used only to compare against the source's whole-row `dropna`. -/
noncomputable def perSymbolRowsSpec (t : PriceTable) (sym : String) : List Nat :=
  (List.range t.dates.length).filter
    (fun i => (returnsCols t).all (fun c => c.1 ≠ sym || definedAt c.2 i))

/-! ## PerformanceAnalyzer: cumulative returns and Sharpe ratio -/

/-- `.cumsum()` on a series of reals. -/
noncomputable def cumsumList : List ℝ → List ℝ
  | [] => []
  | x :: xs => x :: (cumsumList xs).map (fun s => x + s)

/-- `np.exp(np.log1p(r).cumsum()).sub(1)`: the cumulative return
series. -/
noncomputable def cumulativeReturns (rs : List ℝ) : List ℝ :=
  (cumsumList (rs.map (fun r => Real.log (1 + r)))).map (fun s => Real.exp s - 1)

/-- Compounding each period's simple return: (1+r1)...(1+rn) - 1. -/
noncomputable def compoundedTotal (rs : List ℝ) : ℝ :=
  (rs.map (fun r => 1 + r)).prod - 1

noncomputable def listMean (xs : List ℝ) : ℝ := xs.sum / xs.length

/-- `Series.std()`: sample standard deviation with ddof=1, NaN (here
`none`) when there are fewer than two observations. -/
noncomputable def sampleStd (xs : List ℝ) : Option ℝ :=
  if xs.length < 2 then none
  else some (Real.sqrt ((xs.map (fun x => (x - listMean xs) ^ 2)).sum / ((xs.length : ℝ) - 1)))

/-- `returns.std() * np.sqrt(252)`; NaN propagates. -/
noncomputable def annualizedVol (xs : List ℝ) : Option ℝ :=
  (sampleStd xs).map (fun s => s * Real.sqrt 252)

/-- `(returns.mean() * 252) / vol if vol > 0 else 0`; a NaN volatility
also fails the `> 0` test, so it too yields 0. -/
noncomputable def sharpeOf (xs : List ℝ) : ℝ :=
  match annualizedVol xs with
  | some v => if 0 < v then listMean xs * 252 / v else 0
  | none => 0

/-! ## Requests, cache keys and the ResultCache

A raw request body is the JSON object the shell posts: an unordered
list of (field name, value) pairs. Pydantic resolves each optional
field to its declared default, in declaration order, independent of the
order the fields arrived in. -/

inductive JVal
  | jstr (s : String)
  | jnum (n : Int)
deriving DecidableEq, Repr

structure PortfolioRequest where
  sentimentUrl : String
  startDate : String
  endDate : String
  topNStocks : Int
  benchmarkTicker : String
deriving DecidableEq, Repr

def defaultSentimentUrl : String :=
  "https://raw.githubusercontent.com/SalomeAc/Infraestructuras-proyecto/refs/heads/main/sentiment_data.csv"

def strFieldD (raw : List (String × JVal)) (name dflt : String) : String :=
  match raw.lookup name with
  | some (JVal.jstr s) => s
  | _ => dflt

def numFieldD (raw : List (String × JVal)) (name : String) (dflt : Int) : Int :=
  match raw.lookup name with
  | some (JVal.jnum n) => n
  | _ => dflt

/-- Pydantic parsing of `PortfolioRequest`: each field is looked up by
name and falls back to its declared default. -/
def normalizeRequest (raw : List (String × JVal)) : PortfolioRequest :=
  { sentimentUrl := strFieldD raw "sentiment_url" defaultSentimentUrl
    startDate := strFieldD raw "start_date" "2021-01-01"
    endDate := strFieldD raw "end_date" "2023-03-01"
    topNStocks := numFieldD raw "top_n_stocks" 5
    benchmarkTicker := strFieldD raw "benchmark_ticker" "QQQ" }

/-- Stands for `str(request.dict())`: a rendering of the normalized
fields in their (fixed) declaration order. -/
def reqDictStr (r : PortfolioRequest) : String :=
  r.sentimentUrl ++ ";" ++ r.startDate ++ ";" ++ r.endDate ++ ";"
    ++ toString r.topNStocks ++ ";" ++ r.benchmarkTicker

/-- `cache_key = f"portfolio_{hash(str(request.dict()))}"`; `pyHash`
stands for Python's built-in string hash (an arbitrary but fixed
function within one interpreter run). -/
def cacheKey (pyHash : String → Int) (r : PortfolioRequest) : String :=
  "portfolio_" ++ toString (pyHash (reqDictStr r))

/-- The in-process cache dictionary, newest binding first. -/
abbrev Cache (α : Type) := List (String × α)

def cacheGet (c : Cache α) (k : String) : Option α := c.lookup k

/-- `cache[key] = value`. -/
def cachePut (c : Cache α) (k : String) (v : α) : Cache α := (k, v) :: c

/-! ## The analyze_portfolio entry point

The fallible pipeline steps (sentiment load, price download, metric
computation) are oracle parameters returning `Except`; an exception in
the Python body is an `Except.error`, which the endpoint re-raises as
an HTTPException. -/

/-- Unique symbols over all composition dates
(`list(set(all_stocks))`, order abstracted). -/
def uniqueSymbols (comp : List (Date × List String)) : List String :=
  ((comp.map Prod.snd).flatten).dedup

/-- `analyze_portfolio`: serve from cache when the key is present;
otherwise run the pipeline and store the result in the cache only at
the very end, after every step has succeeded. Returns the response (or
error) together with the cache state after the call. -/
def analyzePortfolio {α : Type} (pyHash : String → Int)
    (loadComposition : String → Except String (List (Date × List String)))
    (downloadPrices : List String → String → String → Except String PriceFrame)
    (computeResult : List (Date × List String) → PriceFrame → Except String α)
    (req : PortfolioRequest) (cache : Cache α) : Except String α × Cache α :=
  let key := cacheKey pyHash req
  match cacheGet cache key with
  | some v => (Except.ok v, cache)
  | none =>
    match loadComposition req.sentimentUrl with
    | Except.error e => (Except.error e, cache)
    | Except.ok comp =>
      if comp.isEmpty then (Except.error "no sentiment data", cache)
      else
        match downloadPrices (uniqueSymbols comp) req.startDate req.endDate with
        | Except.error e => (Except.error e, cache)
        | Except.ok prices =>
          if prices.isEmpty then (Except.error "no price data", cache)
          else
            match computeResult comp prices with
            | Except.error e => (Except.error e, cache)
            | Except.ok result => (Except.ok result, cachePut cache key result)

/-! ## Concrete instances used to evaluate the definitions -/

/-- A price table where symbol B's series starts one date later than
symbol A's. -/
noncomputable def exTableC1 : PriceTable :=
  ⟨[0, 1, 2], [("A", [some 1, some 2, some 3]), ("B", [none, some 5, some 6])]⟩

/-- Seventeen tickers, none excluded. -/
def stocksEx : List String :=
  ["A01", "A02", "A03", "A04", "A05", "A06", "A07", "A08", "A09",
   "A10", "A11", "A12", "A13", "A14", "A15", "A16", "A17"]

/-- A price source that serves full 15-ticker batches and fails (empty
frame) on any other batch. -/
def fetchEx (b : List String) : PriceFrame :=
  if b.length = 15 then b.map (fun s => (s, [1])) else []

/-! ## Helper lemmas about the ranking counts -/

lemma countGt_cons (p : String × ℚ) (t : MonthTable) (r : ℚ) :
    countGt (p :: t) r = (if r < p.2 then 1 else 0) + countGt t r := by
  simp only [countGt, List.filter_cons]
  by_cases h : r < p.2 <;> simp [h] <;> omega

lemma countEq_cons (p : String × ℚ) (t : MonthTable) (r : ℚ) :
    countEq (p :: t) r = (if p.2 = r then 1 else 0) + countEq t r := by
  simp only [countEq, List.filter_cons]
  by_cases h : p.2 = r <;> simp [h] <;> omega

lemma one_le_countEq (tbl : MonthTable) (p : String × ℚ) (hp : p ∈ tbl) :
    1 ≤ countEq tbl p.2 := by
  have hmem : p ∈ tbl.filter (fun q => decide (q.2 = p.2)) :=
    List.mem_filter.mpr ⟨hp, by simp⟩
  have hlen := List.length_pos_of_mem hmem
  simpa [countEq] using hlen

lemma countGt_add_countEq_le (tbl : MonthTable) {r1 r2 : ℚ} (h : r2 < r1) :
    countGt tbl r1 + countEq tbl r1 ≤ countGt tbl r2 := by
  induction tbl with
  | nil => simp [countGt, countEq]
  | cons p t ih =>
    rw [countGt_cons, countEq_cons, countGt_cons]
    rcases lt_trichotomy p.2 r1 with hc | hc | hc
    · have h1 : ¬ r1 < p.2 := by linarith
      have h2 : p.2 ≠ r1 := ne_of_lt hc
      by_cases h3 : r2 < p.2 <;> simp [h1, h2, h3] <;> omega
    · have h1 : ¬ r1 < p.2 := by rw [hc]; exact lt_irrefl r1
      have h3 : r2 < p.2 := by rw [hc]; exact h
      simp [h1, hc, h3, h]
      omega
    · have h2 : p.2 ≠ r1 := ne_of_gt hc
      have h3 : r2 < p.2 := lt_trans h hc
      simp [hc, h2, h3]
      omega

lemma avgRankOf_strict_lt (tbl : MonthTable) (p : String × ℚ) (r : ℚ)
    (hp : p ∈ tbl) (h : r < p.2) :
    avgRankOf tbl p.2 < avgRankOf tbl r := by
  unfold avgRankOf
  have h1 := countGt_add_countEq_le tbl h
  have h2 := one_le_countEq tbl p hp
  have key : 2 * countGt tbl p.2 + countEq tbl p.2 + 1
      < 2 * countGt tbl r + countEq tbl r + 1 := by omega
  have keyQ : ((2 * countGt tbl p.2 + countEq tbl p.2 + 1 : Nat) : ℚ)
      < ((2 * countGt tbl r + countEq tbl r + 1 : Nat) : ℚ) := by exact_mod_cast key
  linarith

lemma one_le_avgRankOf (tbl : MonthTable) (p : String × ℚ) (hp : p ∈ tbl) :
    1 ≤ avgRankOf tbl p.2 := by
  unfold avgRankOf
  have h2 := one_le_countEq tbl p hp
  have key : 2 ≤ 2 * countGt tbl p.2 + countEq tbl p.2 + 1 := by omega
  have keyQ : (2 : ℚ) ≤ ((2 * countGt tbl p.2 + countEq tbl p.2 + 1 : Nat) : ℚ) := by
    exact_mod_cast key
  linarith

/-! ## Claim theorems -/

/-- C3 counterexample: in a month whose mean engagement values are
a = 2, b = 2, c = 1, the code's rank (pandas default, the average
method) assigns c rank 3 while a dense descending rank would assign it
2, and the tied pair a, b gets the fractional rank 3/2; so the rank is
not dense and the realized ranks have a gap. -/
theorem rank_is_not_dense_cex :
    avgRankOf [("a", 2), ("b", 2), ("c", 1)] 1 = 3
    ∧ denseRankSpec [("a", 2), ("b", 2), ("c", 1)] 1 = 2
    ∧ avgRankOf [("a", 2), ("b", 2), ("c", 1)] 2 = 3 / 2
    ∧ avgRankOf [("a", 2), ("b", 2), ("c", 1)] 1
        ≠ denseRankSpec [("a", 2), ("b", 2), ("c", 1)] 1 := by
  refine ⟨?_, ?_, ?_, ?_⟩ <;>
    norm_num [avgRankOf, countGt, countEq, denseRankSpec, List.filter, List.dedup]

/-- C3 (amended): per month, `rank(ascending=False)` with the pandas
default (average) method is descending — a strictly greater mean
engagement value receives a strictly smaller rank, equal values share
one rank (the mean of the tied positions, possibly fractional), and
every assigned rank is at least 1 — but it is not a dense rank: ties
produce fractional shared ranks and leave gaps. -/
theorem rank_is_average_rank (tbl : MonthTable) (p q : String × ℚ)
    (hp : p ∈ tbl) (hq : q ∈ tbl) :
    (p.2 = q.2 → avgRankOf tbl p.2 = avgRankOf tbl q.2)
    ∧ (q.2 < p.2 → avgRankOf tbl p.2 < avgRankOf tbl q.2)
    ∧ 1 ≤ avgRankOf tbl p.2 := by
  refine ⟨fun h => by rw [h], fun h => avgRankOf_strict_lt tbl p q.2 hp h,
    one_le_avgRankOf tbl p hp⟩

/-- Witness for rank_is_average_rank at the table a = 2, b = 2, c = 1:
a (value 2) ranks strictly before c (value 1), and a's rank is at
least 1. -/
theorem rank_is_average_rank_witness :
    (avgRankOf [("a", 2), ("b", 2), ("c", 1)] (2 : ℚ)
        < avgRankOf [("a", 2), ("b", 2), ("c", 1)] (1 : ℚ))
    ∧ 1 ≤ avgRankOf [("a", 2), ("b", 2), ("c", 1)] (2 : ℚ) := by
  have h := rank_is_average_rank [("a", 2), ("b", 2), ("c", 1)] ("a", 2) ("c", 1)
    (by simp) (by simp)
  exact ⟨h.2.1 (by norm_num), h.2.2⟩

/-- C9: the top-N filter `rank < top_n + 1` treats a tied group
atomically — two rows of a month with equal mean engagement values are
either both kept or both dropped — and when a tie straddles the cutoff
the number of selected symbols can exceed topN (a = b = 2 ties for
first, topN = 1 selects both) or fall short of it (b = c = d = 2 tie
behind a, topN = 2 selects only a). -/
theorem tied_symbols_selected_atomically :
    (∀ (tbl : MonthTable) (n : Nat) (p q : String × ℚ), p ∈ tbl → q ∈ tbl →
      p.2 = q.2 → (p ∈ topFilter tbl n ↔ q ∈ topFilter tbl n))
    ∧ (selectSymbols [("a", 2), ("b", 2), ("c", 1)] 1).length = 2
    ∧ (selectSymbols [("a", 3), ("b", 2), ("c", 2), ("d", 2)] 2).length = 1 := by
  refine ⟨?_, ?_, ?_⟩
  · intro tbl n p q hp hq hpq
    simp only [topFilter, List.mem_filter]
    rw [hpq]
    exact ⟨fun ⟨_, hc⟩ => ⟨hq, hc⟩, fun ⟨_, hc⟩ => ⟨hp, hc⟩⟩
  · norm_num [selectSymbols, topFilter, avgRankOf, countGt, countEq, List.filter]
  · norm_num [selectSymbols, topFilter, avgRankOf, countGt, countEq, List.filter]

/-- Witness for tied_symbols_selected_atomically: in the month
a = 2, b = 2, c = 1 with topN = 1 the tied rows ("a", 2) and ("b", 2)
are selected together. -/
theorem tied_symbols_selected_atomically_witness :
    (("a", (2 : ℚ)) ∈ topFilter [("a", 2), ("b", 2), ("c", 1)] 1
      ↔ ("b", (2 : ℚ)) ∈ topFilter [("a", 2), ("b", 2), ("c", 1)] 1) :=
  tied_symbols_selected_atomically.1 [("a", 2), ("b", 2), ("c", 1)] 1
    ("a", 2) ("b", 2) (by simp) (by simp) rfl

/-- C2: if month (y, m) ranks symbol s within the top N (s survives
`filter_top_stocks`), then the composition lists s under the holding
date `monthEnd + pd.DateOffset(1)`, which is the first calendar day of
month m+1 — one reporting period after month m's end, so month m's
signal selects holdings for month m+1. -/
theorem holding_start_is_first_day_of_next_month
    (agg : Aggregated) (topN : Nat) (y m : Nat) (tbl : MonthTable) (s : String)
    (hmem : ((y, m), tbl) ∈ agg) (hsel : s ∈ selectSymbols tbl topN) :
    (addOneDay (monthEnd y m), selectSymbols tbl topN) ∈ buildComposition agg topN
    ∧ s ∈ selectSymbols tbl topN
    ∧ addOneDay (monthEnd y m)
        = (if m < 12 then Date.mk y (m + 1) 1 else Date.mk (y + 1) 1 1) := by
  refine ⟨List.mem_map_of_mem _ hmem, hsel, ?_⟩
  simp [addOneDay, monthEnd]

/-- Witness for holding_start_is_first_day_of_next_month: the month
January 2021 with engagement table A = 3, B = 1 and topN = 1 selects A,
and A is held from 2021-02-01. -/
theorem holding_start_witness :
    ((addOneDay (monthEnd 2021 1), selectSymbols [("A", 3), ("B", 1)] 1)
        ∈ buildComposition [((2021, 1), [("A", 3), ("B", 1)])] 1)
    ∧ ("A" : String) ∈ selectSymbols [("A", 3), ("B", 1)] 1
    ∧ addOneDay (monthEnd 2021 1)
        = (if 1 < 12 then Date.mk 2021 (1 + 1) 1 else Date.mk (2021 + 1) 1 1) :=
  holding_start_is_first_day_of_next_month
    [((2021, 1), [("A", 3), ("B", 1)])] 1 2021 1 [("A", 3), ("B", 1)] "A"
    (by simp)
    (by norm_num [selectSymbols, topFilter, avgRankOf, countGt, countEq, List.filter])

/-- C8 counterexample: constructing `ParallelPortfolioEngine` without
passing a batch size yields batch size 20, not 15, so the fetcher's
default batch size is not 15. -/
theorem default_batch_size_not_fifteen_cex :
    (engineInit none).batchSize = 20 ∧ (engineInit none).batchSize ≠ 15 := by
  exact ⟨rfl, by decide⟩

/-- C8 (amended): `ParallelPortfolioEngine.__init__` defaults the batch
size to 20 when the caller does not pass one; the batch size 15 of the
spec is what `PortfolioAPI` passes explicitly when it constructs the
engine, and the default of the no-Ray download path
`parallel_stock_download_simple`. -/
theorem batch_size_defaults :
    (engineInit none).batchSize = 20
    ∧ apiEngine.batchSize = 15
    ∧ simpleDownloadBatchSize none = 15 := by
  exact ⟨rfl, rfl, rfl⟩

/-! ## Helper lemmas for the batched fetcher -/

lemma chunkList_nil (s : Nat) : chunkList ([] : List α) s = [] := by
  rw [chunkList.eq_def]

lemma chunkList_step (l : List α) (s : Nat) (hl : l ≠ []) (hs : s ≠ 0) :
    chunkList l s = l.take s :: chunkList (l.drop s) s := by
  rw [chunkList.eq_def]
  cases l with
  | nil => exact absurd rfl hl
  | cons x xs =>
    cases s with
    | zero => exact absurd rfl hs
    | succ n => rfl

lemma chunkList_of_length_17 (l : List α) (h : l.length = 17) :
    chunkList l 15 = [l.take 15, l.drop 15] := by
  have hl : l ≠ [] := by
    intro hnil
    rw [hnil] at h
    simp at h
  have h2 : (l.drop 15).length = 2 := by
    simp only [List.length_drop, h]
  obtain ⟨a, b, hab⟩ := List.length_eq_two.mp h2
  rw [chunkList_step l 15 hl (by norm_num), hab,
    chunkList_step [a, b] 15 (by simp) (by norm_num),
    show ([a, b].drop 15) = [] from rfl, chunkList_nil,
    show ([a, b].take 15) = [a, b] from rfl]

/-- C4: with 17 requested symbols (none on the exclusion list) and
batch size 15, the fetcher issues exactly 2 batches; when the second
batch fails entirely (comes back empty) and the first returns one
column per requested ticker, the merge silently omits the failed batch
and the merged frame's symbols are exactly the 15 tickers of the
surviving first batch. -/
theorem two_batches_failed_batch_omitted
    (stocks : List String) (fetch : List String → PriceFrame)
    (h17 : stocks.length = 17)
    (hexcl : ∀ s ∈ stocks, s ∉ excludedStocks)
    (hb1 : (fetch (stocks.take 15)).map Prod.fst = stocks.take 15)
    (hb2 : fetch (stocks.drop 15) = []) :
    (chunkList stocks 15).length = 2
    ∧ (downloadStockDataParallel fetch stocks 15).map Prod.fst = stocks.take 15
    ∧ (stocks.take 15).length = 15 := by
  have hchunk := chunkList_of_length_17 stocks h17
  have htake : (stocks.take 15).length = 15 := by
    simp [List.length_take, h17]
  have hfilter : stocks.filter (fun s => decide (s ∉ excludedStocks)) = stocks :=
    List.filter_eq_self.mpr (fun a ha => by simp [hexcl a ha])
  refine ⟨by rw [hchunk]; rfl, ?_, htake⟩
  have hb1ne : (fetch (stocks.take 15)).isEmpty = false := by
    rcases hF : fetch (stocks.take 15) with _ | ⟨c, cs⟩
    · rw [hF] at hb1
      have hz : (stocks.take 15).length = 0 := by rw [← hb1]; simp
      omega
    · simp
  simp only [downloadStockDataParallel]
  rw [hfilter, hchunk]
  simp [hb2, hb1ne, hb1]

/-- Witness for two_batches_failed_batch_omitted on a concrete list of
17 tickers and a source that only serves the first batch. -/
theorem two_batches_failed_batch_omitted_witness :
    (chunkList stocksEx 15).length = 2
    ∧ (downloadStockDataParallel fetchEx stocksEx 15).map Prod.fst = stocksEx.take 15
    ∧ (stocksEx.take 15).length = 15 :=
  two_batches_failed_batch_omitted stocksEx fetchEx (by decide) (by decide)
    (by decide) (by decide)

/-! ## Helper lemmas for the return calculator -/

lemma definedAt_nil (i : Nat) : definedAt [] i = false := by
  simp [definedAt]

lemma definedAt_cons_zero (x : Option ℝ) (xs : Series) :
    definedAt (x :: xs) 0 = x.isSome := by
  cases x <;> simp [definedAt]

lemma definedAt_cons_succ (x : Option ℝ) (xs : Series) (i : Nat) :
    definedAt (x :: xs) (i + 1) = definedAt xs i := by
  simp [definedAt]

lemma diffCell_isSome (a b : Option ℝ) :
    (diffCell a b).isSome = (a.isSome && b.isSome) := by
  cases a <;> cases b <;> rfl

lemma definedAt_diffColAux (col : Series) : ∀ (prev : Option ℝ) (i : Nat),
    definedAt (diffColAux prev col) i = (definedAt (prev :: col) i && definedAt col i) := by
  induction col with
  | nil =>
    intro prev i
    rw [diffColAux]
    simp [definedAt_nil]
  | cons x xs ih =>
    intro prev i
    cases i with
    | zero =>
      rw [diffColAux]
      rw [definedAt_cons_zero, definedAt_cons_zero, definedAt_cons_zero,
        diffCell_isSome]
    | succ j =>
      rw [diffColAux]
      rw [definedAt_cons_succ, definedAt_cons_succ, ih x j, definedAt_cons_succ]

lemma definedAt_diffCol (col : Series) (i : Nat) :
    definedAt (diffCol col) i = (definedAt ((none : Option ℝ) :: col) i && definedAt col i) :=
  definedAt_diffColAux col none i

lemma definedAt_npLogCol (col : Series) (i : Nat) :
    definedAt (npLogCol col) i = definedAt col i := by
  rcases hc : col[i]? with _ | cell
  · simp [definedAt, npLogCol, List.getElem?_map, hc]
  · cases cell <;> simp [definedAt, npLogCol, List.getElem?_map, hc]

/-- C1 counterexample: on a price table where symbol A has prices on
all three dates but symbol B is missing its first price, A's own
log-difference is defined at row 1, yet the whole-row `dropna` keeps
only row 2: A's defined first return is dropped because of B, and both
symbols end up with the same first valid date. Under the per-symbol
dropping the claim describes, A would have kept rows [1, 2] while B
kept [2] (ragged start dates). -/
theorem returns_dropna_not_per_symbol_cex :
    survivingRows exTableC1 = [2]
    ∧ definedAt (diffCol (npLogCol [some 1, some 2, some 3])) 1 = true
    ∧ perSymbolRowsSpec exTableC1 "A" = [1, 2]
    ∧ perSymbolRowsSpec exTableC1 "B" = [2] := by
  exact ⟨rfl, rfl, rfl, rfl⟩

/-- C1 (amended): `np.log(adj_close).diff().dropna()` drops a row as
soon as any symbol's differencing is undefined there, so (for a table
with at least one column) a row survives exactly when it is not the
first row and every symbol has a price both on it and on the previous
row: all symbols share the common fully-defined date set, and symbols
whose series start later cut earlier dates off every other symbol
(start dates are not ragged). -/
theorem returns_dropna_row_intersection (t : PriceTable) (i : Nat)
    (hne : t.cols ≠ []) :
    i ∈ survivingRows t ↔
      i < t.dates.length ∧ 1 ≤ i
      ∧ ∀ c ∈ t.cols, definedAt c.2 (i - 1) = true ∧ definedAt c.2 i = true := by
  rw [survivingRows, List.mem_filter, List.mem_range]
  rw [rowAllDefined, List.all_eq_true]
  constructor
  · rintro ⟨hlt, hall⟩
    refine ⟨hlt, ?_, ?_⟩
    · cases i with
      | zero =>
        exfalso
        obtain ⟨c, hc⟩ := List.exists_mem_of_ne_nil t.cols hne
        have h := hall (c.1, diffCol (npLogCol c.2))
          (by rw [returnsCols]; exact List.mem_map_of_mem _ hc)
        rw [definedAt_diffCol] at h
        simp [definedAt_cons_zero] at h
      | succ j => omega
    · intro c hc
      have h := hall (c.1, diffCol (npLogCol c.2))
        (by rw [returnsCols]; exact List.mem_map_of_mem _ hc)
      cases i with
      | zero =>
        rw [definedAt_diffCol] at h
        simp [definedAt_cons_zero] at h
      | succ j =>
        rw [definedAt_diffCol, definedAt_cons_succ, definedAt_npLogCol,
          definedAt_npLogCol] at h
        simp only [Bool.and_eq_true] at h
        exact ⟨by simpa using h.1, h.2⟩
  · rintro ⟨hlt, hpos, hall⟩
    refine ⟨hlt, ?_⟩
    intro c' hc'
    rw [returnsCols] at hc'
    obtain ⟨c, hc, rfl⟩ := List.mem_map.mp hc'
    cases i with
    | zero => omega
    | succ j =>
      rw [definedAt_diffCol, definedAt_cons_succ, definedAt_npLogCol,
        definedAt_npLogCol]
      have h := hall c hc
      simp only [Nat.succ_sub_one] at h
      simp [h.1, h.2]

/-- Witness for returns_dropna_row_intersection at the two-symbol
table: row 2 survives and satisfies the characterization. -/
theorem returns_dropna_row_intersection_witness :
    exTableC1.cols ≠ []
    ∧ (2 ∈ survivingRows exTableC1 ↔
        2 < exTableC1.dates.length ∧ 1 ≤ 2
        ∧ ∀ c ∈ exTableC1.cols, definedAt c.2 (2 - 1) = true ∧ definedAt c.2 2 = true) :=
  ⟨by simp [exTableC1], returns_dropna_row_intersection exTableC1 2 (by simp [exTableC1])⟩

/-! ## Helper lemmas for the cumulative-return series -/

lemma getLastD_map (f : ℝ → ℝ) : ∀ (l : List ℝ) (d : ℝ),
    (l.map f).getLastD (f d) = f (l.getLastD d) := by
  intro l
  induction l with
  | nil => intro d; rfl
  | cons x xs ih =>
    intro d
    rw [List.map_cons, List.getLastD_cons, List.getLastD_cons]
    exact ih x

lemma cumsum_getLastD (xs : List ℝ) : ∀ (x : ℝ),
    (cumsumList (x :: xs)).getLastD 0 = (x :: xs).sum := by
  induction xs with
  | nil => intro x; simp [cumsumList]
  | cons y ys ih =>
    intro x
    rw [show cumsumList (x :: y :: ys)
        = x :: (cumsumList (y :: ys)).map (fun s => x + s) from rfl]
    rw [List.getLastD_cons]
    have hm := getLastD_map (fun s => x + s) (cumsumList (y :: ys)) 0
    simp only [add_zero] at hm
    rw [hm, ih y]
    simp

lemma exp_list_sum_log (l : List ℝ) (h : ∀ x ∈ l, 0 < x) :
    Real.exp ((l.map Real.log).sum) = l.prod := by
  induction l with
  | nil => simp
  | cons x xs ih =>
    rw [List.map_cons, List.sum_cons, List.prod_cons, Real.exp_add,
      Real.exp_log (h x (by simp))]
    rw [ih (fun y hy => h y (by simp [hy]))]

/-- C5: for per-period simple returns r1..rn each above -1, the final
value of the cumulative series exp(cumsum(log(1+r))) - 1 equals the
compounded product (1+r1)...(1+rn) - 1 exactly: compounding, not
simple summation. -/
theorem cumulative_final_is_compounded (rs : List ℝ)
    (h : ∀ r ∈ rs, -1 < r) (hne : rs ≠ []) :
    (cumulativeReturns rs).getLastD 0 = compoundedTotal rs := by
  obtain ⟨x, xs, rfl⟩ := List.exists_cons_of_ne_nil hne
  unfold cumulativeReturns compoundedTotal
  have hm := getLastD_map (fun s => Real.exp s - 1)
    (cumsumList ((x :: xs).map (fun r => Real.log (1 + r)))) 0
  simp only [Real.exp_zero, sub_self] at hm
  rw [hm, List.map_cons, cumsum_getLastD]
  have hpos : ∀ y ∈ (x :: xs).map (fun r => (1 : ℝ) + r), 0 < y := by
    intro y hy
    obtain ⟨r, hr, rfl⟩ := List.mem_map.mp hy
    have := h r hr
    linarith
  have hmm : Real.log (1 + x) :: xs.map (fun r => Real.log (1 + r))
      = ((x :: xs).map (fun r => (1 : ℝ) + r)).map Real.log := by
    rw [List.map_map]
    rfl
  rw [hmm, exp_list_sum_log _ hpos]

/-- Witness for cumulative_final_is_compounded at the one-element
return series [1] (a 100 percent return). -/
theorem cumulative_final_is_compounded_witness :
    (∀ r ∈ [(1 : ℝ)], -1 < r)
    ∧ (cumulativeReturns [1]).getLastD 0 = compoundedTotal [1] :=
  ⟨by norm_num, cumulative_final_is_compounded [1] (by norm_num) (by simp)⟩

/-- C6: a return series of constant value — the empty series and the
single observation included — has zero variance, and the computed
annualized Sharpe ratio is exactly 0: the volatility is 0 (or NaN for
fewer than two observations), the `vol > 0` guard fails, and the
division branch is never taken, so no division by zero occurs. -/
theorem sharpe_zero_for_zero_variance (xs : List ℝ) (c : ℝ)
    (h : ∀ x ∈ xs, x = c) : sharpeOf xs = 0 := by
  by_cases hlen : xs.length < 2
  · have hv : annualizedVol xs = none := by
      simp [annualizedVol, sampleStd, hlen]
    simp [sharpeOf, hv]
  · have hne : (xs.length : ℝ) ≠ 0 := by
      have hp : 0 < xs.length := by omega
      exact Nat.cast_ne_zero.mpr (by omega)
    have hmean : listMean xs = c := by
      have hs : xs.sum = xs.length • c := List.sum_eq_card_nsmul xs c h
      rw [listMean, hs, nsmul_eq_mul]
      field_simp
    have hsum : (xs.map (fun x => (x - listMean xs) ^ 2)).sum = 0 := by
      apply List.sum_eq_zero
      intro y hy
      obtain ⟨x, hx, rfl⟩ := List.mem_map.mp hy
      rw [h x hx, hmean]
      ring
    have hv : annualizedVol xs = some 0 := by
      simp [annualizedVol, sampleStd, hlen, hsum]
    simp [sharpeOf, hv]

/-- Witness for sharpe_zero_for_zero_variance at the empty return
series. -/
theorem sharpe_zero_for_zero_variance_witness :
    (∀ x ∈ ([] : List ℝ), x = 0) ∧ sharpeOf [] = 0 :=
  ⟨by simp, sharpe_zero_for_zero_variance [] 0 (by simp)⟩

/-! ## Helper lemma for cache-key determinism -/

lemma lookup_eq_of_perm : ∀ {l1 l2 : List (String × JVal)}, l1.Perm l2 →
    (l1.map Prod.fst).Nodup → ∀ a, l1.lookup a = l2.lookup a := by
  intro l1 l2 p
  induction p with
  | nil => intro _ _; rfl
  | cons x _ ih =>
    intro hnd a
    rcases x with ⟨k, v⟩
    rw [List.map_cons] at hnd
    have hnd' := hnd.of_cons
    by_cases hk : a == k <;> simp [List.lookup, hk, ih hnd' a]
  | swap x y l =>
    intro hnd a
    rcases x with ⟨xk, xv⟩
    rcases y with ⟨yk, yv⟩
    rw [List.map_cons, List.map_cons] at hnd
    have hxy : yk ≠ xk := by
      rcases List.nodup_cons.mp hnd with ⟨hyn, _⟩
      intro he
      exact hyn (by simp [he])
    by_cases h1 : a == yk <;> by_cases h2 : a == xk
    · exfalso
      have e1 : a = yk := by simpa using h1
      have e2 : a = xk := by simpa using h2
      exact hxy (e1.symm.trans e2)
    · simp [List.lookup, h1, h2]
    · simp [List.lookup, h1, h2]
    · simp [List.lookup, h1, h2]
  | trans p1 _ ih1 ih2 =>
    intro hnd a
    rw [ih1 hnd a]
    exact ih2 ((p1.map Prod.fst).nodup hnd) a

/-- C7: the cache key is a deterministic function of the normalized
request — two raw requests whose fields are the same set of pairs in
any order (no duplicate field names) normalize to the same request and
the same key — and the cache map is idempotent memoization: a get after
a put for that key returns the stored payload verbatim, and a request
whose key is cached is answered with the cached payload with the cache
left unchanged. -/
theorem cache_key_deterministic_and_memoized :
    (∀ (pyHash : String → Int) (raw1 raw2 : List (String × JVal)),
        raw1.Perm raw2 → (raw1.map Prod.fst).Nodup →
        cacheKey pyHash (normalizeRequest raw1) = cacheKey pyHash (normalizeRequest raw2))
    ∧ (∀ (α : Type) (c : Cache α) (k : String) (v : α),
        cacheGet (cachePut c k v) k = some v)
    ∧ (∀ (α : Type) (pyHash : String → Int)
        (f : String → Except String (List (Date × List String)))
        (g : List String → String → String → Except String PriceFrame)
        (mtr : List (Date × List String) → PriceFrame → Except String α)
        (req : PortfolioRequest) (c : Cache α) (v : α),
        cacheGet c (cacheKey pyHash req) = some v →
        analyzePortfolio pyHash f g mtr req c = (Except.ok v, c)) := by
  refine ⟨?_, ?_, ?_⟩
  · intro ph raw1 raw2 p hnd
    have hl := lookup_eq_of_perm p hnd
    have hn : normalizeRequest raw1 = normalizeRequest raw2 := by
      simp only [normalizeRequest, strFieldD, numFieldD, hl]
    rw [hn]
  · intro α c k v
    simp [cacheGet, cachePut, List.lookup]
  · intro α ph f g mtr req c v hv
    simp only [analyzePortfolio]
    rw [hv]

/-- Witness for cache_key_deterministic_and_memoized: the same two
fields sent in either order produce the same key, and a lookup after a
store returns the stored payload. -/
theorem cache_key_deterministic_and_memoized_witness :
    (cacheKey (fun s => (s.length : Int))
        (normalizeRequest [("top_n_stocks", JVal.jnum 3), ("start_date", JVal.jstr "2022-01-01")])
      = cacheKey (fun s => (s.length : Int))
        (normalizeRequest [("start_date", JVal.jstr "2022-01-01"), ("top_n_stocks", JVal.jnum 3)]))
    ∧ cacheGet (cachePut ([] : Cache Nat) "portfolio_0" 42) "portfolio_0" = some 42 :=
  ⟨cache_key_deterministic_and_memoized.1 (fun s => (s.length : Int)) _ _
      (List.Perm.swap ("start_date", JVal.jstr "2022-01-01") ("top_n_stocks", JVal.jnum 3) [])
      (by decide),
    cache_key_deterministic_and_memoized.2.1 Nat [] "portfolio_0" 42⟩

/-- C10: the analyze entry point mutates the cache only by storing the
final payload after every pipeline step has succeeded: whenever the
call returns an error — sentiment load failure, empty composition,
price download failure, empty price table, or metric failure — the
cache is returned unchanged, and a successful computed (non-cached)
result leaves the cache equal to the old cache with exactly the new
entry stored. -/
theorem cache_written_only_after_success (α : Type) (pyHash : String → Int)
    (f : String → Except String (List (Date × List String)))
    (g : List String → String → String → Except String PriceFrame)
    (mtr : List (Date × List String) → PriceFrame → Except String α)
    (req : PortfolioRequest) (c : Cache α) :
    (∀ e, (analyzePortfolio pyHash f g mtr req c).1 = Except.error e →
        (analyzePortfolio pyHash f g mtr req c).2 = c)
    ∧ (∀ v, cacheGet c (cacheKey pyHash req) = none →
        (analyzePortfolio pyHash f g mtr req c).1 = Except.ok v →
        (analyzePortfolio pyHash f g mtr req c).2
          = cachePut c (cacheKey pyHash req) v) := by
  simp only [analyzePortfolio]
  rcases hget : cacheGet c (cacheKey pyHash req) with _ | w
  · rcases hload : f req.sentimentUrl with e | comp
    · simp
    · by_cases hcomp : comp.isEmpty
      · simp [hcomp]
      · simp only [hcomp, Bool.false_eq_true, if_false]
        rcases hdl : g (uniqueSymbols comp) req.startDate req.endDate with e | prices
        · simp
        · by_cases hpr : prices.isEmpty
          · simp [hpr]
          · simp only [hpr, Bool.false_eq_true, if_false]
            rcases hres : mtr comp prices with e | result
            · simp
            · constructor
              · intro e he
                simp at he
              · intro v _ hv
                simp only [Except.ok.injEq] at hv
                rw [hv]
  · constructor
    · intro e he
      simp at he
    · intro v hnone _
      exact absurd hnone (by simp)

/-- Witness for cache_written_only_after_success: a failing sentiment
source returns its error and leaves the empty cache empty. -/
theorem cache_written_only_after_success_witness :
    ((analyzePortfolio (fun _ => 0) (fun _ => Except.error "boom")
        (fun _ _ _ => Except.error "x") (fun _ _ => Except.error "y")
        (normalizeRequest []) ([] : Cache Nat)).1 = Except.error "boom")
    ∧ (analyzePortfolio (fun _ => 0) (fun _ => Except.error "boom")
        (fun _ _ _ => Except.error "x") (fun _ _ => Except.error "y")
        (normalizeRequest []) ([] : Cache Nat)).2 = ([] : Cache Nat) :=
  ⟨rfl,
    (cache_written_only_after_success Nat (fun _ => 0) (fun _ => Except.error "boom")
        (fun _ _ _ => Except.error "x") (fun _ _ => Except.error "y")
        (normalizeRequest []) []).1 "boom" rfl⟩

end Portfolio
